import Mathlib

/-!
Verification of the ParleVision `PipelineElement` core
(src/include/PipelineElement.h, src/include/PlvExceptions.h).

The visible core of the repository consists of header declarations; the method
bodies live in a translation unit that is not part of the visible sources.
Where a definition below embeds behaviour whose body is absent, its doc
comment starts with the words Modelled from the spec and names the missing
piece; everything else (the data structures, the exception taxonomy, the
declared state enumeration) is translated from the headers directly.
-/

namespace plv

/-- Exception taxonomy translated from src/include/PlvExceptions.h:
IllegalArgumentException carries a message string. -/
structure IllegalArgumentException where
  msg : String
deriving Repr, DecidableEq

/-- Exception taxonomy translated from src/include/PlvExceptions.h:
PipelineException carries a message string. -/
structure PipelineException where
  msg : String
deriving Repr, DecidableEq

/-- The element lifecycle state enumeration, translated from the
PlvPipelineElementState enum in src/include/PipelineElement.h. -/
inductive PlvPipelineElementState where
  | PLV_PLE_STATE_UNINITIALIZED
  | PLV_PLE_STATE_NOT_READY
  | PLV_PLE_STATE_READY
deriving Repr, DecidableEq

/-- An input pin, an external collaborator type referenced by contract:
it has a name, a flag saying whether its data is required for the default
readiness policy, and whether it currently holds unconsumed data. -/
structure IInputPin where
  name : String
  required : Bool
  hasUnconsumedData : Bool
deriving Repr, DecidableEq

/-- An output pin, an external collaborator type referenced by contract:
only its name matters to the registry. -/
structure IOutputPin where
  name : String
deriving Repr, DecidableEq

/-- A name-indexed pin registry, the embedding of
std::map< QString, RefPtr< pin > > from src/include/PipelineElement.h:
an association list of (name, pin) pairs whose keys are unique; the C++
map keeps its keys sorted, which we account for when enumerating names. -/
abbrev PinMap (π : Type) := List (String × π)

/-- The keys of a pin registry. -/
def PinMap.keys {π : Type} (m : PinMap π) : List String :=
  m.map Prod.fst

/-- std::map::count-style membership test on a pin registry. -/
def PinMap.containsKey {π : Type} (m : PinMap π) (n : String) : Bool :=
  m.any (fun p => p.1 == n)

/-- std::map::find-style lookup on a pin registry. -/
def PinMap.findKey {π : Type} (m : PinMap π) (n : String) : Option π :=
  (m.find? (fun p => p.1 == n)).map Prod.snd

/-- std::map::insert of a fresh key (the registry operations only insert
after checking absence, so no overwrite case arises). -/
def PinMap.insertKey {π : Type} (m : PinMap π) (n : String) (v : π) : PinMap π :=
  m ++ [(n, v)]

/-- The registries of an element, translated from the m_inputPins and
m_outputPins members declared in src/include/PipelineElement.h. -/
structure PipelineElement where
  m_inputPins : PinMap IInputPin
  m_outputPins : PinMap IOutputPin
deriving Repr, DecidableEq

/-- A freshly constructed element has empty registries. -/
def PipelineElement.mkNew : PipelineElement :=
  { m_inputPins := [], m_outputPins := [] }

/-- Modelled from the spec: the body of PipelineElement::addInputPin is not
under src/. Registers the pin under its own name into the input map; fails
with IllegalArgumentException if an input pin with the same name already
exists, the check consulting the input map only. -/
def PipelineElement.addInputPin (e : PipelineElement) (pin : IInputPin) :
    Except IllegalArgumentException PipelineElement :=
  if e.m_inputPins.containsKey pin.name then
    .error { msg := "input pin with the same name already exists" }
  else
    .ok { e with m_inputPins := e.m_inputPins.insertKey pin.name pin }

/-- Modelled from the spec: the body of PipelineElement::addOutputPin is not
under src/. Registers the pin under its own name into the output map; fails
with IllegalArgumentException if an output pin with the same name already
exists, the check consulting the output map only. -/
def PipelineElement.addOutputPin (e : PipelineElement) (pin : IOutputPin) :
    Except IllegalArgumentException PipelineElement :=
  if e.m_outputPins.containsKey pin.name then
    .error { msg := "output pin with the same name already exists" }
  else
    .ok { e with m_outputPins := e.m_outputPins.insertKey pin.name pin }

/-- Modelled from the spec: the body of PipelineElement::getInputPin is not
under src/. Returns the input pin with that name, or none if none exists. -/
def PipelineElement.getInputPin (e : PipelineElement) (n : String) : Option IInputPin :=
  e.m_inputPins.findKey n

/-- Modelled from the spec: the body of PipelineElement::getOutputPin is not
under src/. Returns the output pin with that name, or none if none exists. -/
def PipelineElement.getOutputPin (e : PipelineElement) (n : String) : Option IOutputPin :=
  e.m_outputPins.findKey n

/-- Modelled from the spec: the body of PipelineElement::getInputPinNames is
not under src/; a std::map iterates its keys in key order, so the produced
list is the registered input pin names sorted lexicographically. -/
def PipelineElement.getInputPinNames (e : PipelineElement) : List String :=
  e.m_inputPins.keys.insertionSort (· ≤ ·)

/-- Modelled from the spec: the body of PipelineElement::getOutputPinNames is
not under src/; a std::map iterates its keys in key order, so the produced
list is the registered output pin names sorted lexicographically. -/
def PipelineElement.getOutputPinNames (e : PipelineElement) : List String :=
  e.m_outputPins.keys.insertionSort (· ≤ ·)

/-- Modelled from the spec: the body of PipelineElement::isReadyForProcessing
is not under src/. Default policy when unoverridden: ready if and only if all
required input pins currently hold unconsumed data. -/
def PipelineElement.isReadyForProcessing (e : PipelineElement) : Bool :=
  e.m_inputPins.all (fun p => !p.2.required || p.2.hasUnconsumedData)

/-- The observations isReadyForProcessing makes of an element: for each input
pin, whether it is required and whether it currently holds unconsumed data. -/
def PipelineElement.readinessObservations (e : PipelineElement) : List (Bool × Bool) :=
  e.m_inputPins.map (fun p => (p.2.required, p.2.hasUnconsumedData))

/-- Modelled from the spec: the const qualifier on isReadyForProcessing; the
method call returns its boolean verdict together with the (unchanged) element
state, so mutation of state, registries or pin contents is expressible. -/
def PipelineElement.isReadyForProcessingCall (e : PipelineElement) :
    Bool × PipelineElement :=
  (e.isReadyForProcessing, e)

/- ## Element lifecycle state machine -/

/-- The operations through which the spec allows the lifecycle state of an element
to change: the one-time init (whose element-specific body reports whether the
element is immediately ready) and readiness re-evaluation. -/
inductive LifecycleOp where
  | init (ready : Bool)
  | reevaluate (ready : Bool)
deriving Repr, DecidableEq

/-- Whether a lifecycle operation is an init call. -/
def LifecycleOp.isInit : LifecycleOp → Bool
  | .init _ => true
  | .reevaluate _ => false

open PlvPipelineElementState in
/-- Modelled from the spec: the element state machine is declared only through
the PlvPipelineElementState enum and the init declaration in
src/include/PipelineElement.h; no state field or transition code is under
src/. init moves an UNINITIALIZED element to NOT_READY or READY (on an
already-initialized element it must not corrupt state, modelled as a no-op);
readiness re-evaluation moves only between NOT_READY and READY and is never
applied by the scheduler to an uninitialized element. -/
def lifecycleStep (s : PlvPipelineElementState) : LifecycleOp → PlvPipelineElementState
  | .init ready =>
    match s with
    | PLV_PLE_STATE_UNINITIALIZED =>
      if ready then PLV_PLE_STATE_READY else PLV_PLE_STATE_NOT_READY
    | s => s
  | .reevaluate ready =>
    match s with
    | PLV_PLE_STATE_UNINITIALIZED => PLV_PLE_STATE_UNINITIALIZED
    | _ => if ready then PLV_PLE_STATE_READY else PLV_PLE_STATE_NOT_READY

/-- Run a sequence of lifecycle operations from a starting state. -/
def runLifecycle (s : PlvPipelineElementState) (ops : List LifecycleOp) :
    PlvPipelineElementState :=
  ops.foldl lifecycleStep s

/-- The state an element is constructed in. -/
def constructedState : PlvPipelineElementState :=
  PlvPipelineElementState.PLV_PLE_STATE_UNINITIALIZED

/- ## Type registry -/

/-- The global type registry, the embedding of the static s_types list
declared in src/include/PipelineElement.h. -/
abbrev TypeRegistry := List String

/-- Modelled from the spec: the body of PipelineElement::registerType is not
under src/. Fails with the illegal-argument condition if the name is already
registered, otherwise appends it to the registry. -/
def registerType (reg : TypeRegistry) (typeName : String) :
    Except IllegalArgumentException TypeRegistry :=
  if reg.contains typeName then
    .error { msg := "type name already registered" }
  else
    .ok (reg ++ [typeName])

/-- Modelled from the spec: the body of PipelineElement::types is not under
src/. Produces the full list of currently known type names. -/
def types (reg : TypeRegistry) : List String :=
  reg

/-- Register a whole list of names in order, stopping at the first failure. -/
def registerTypes (reg : TypeRegistry) : List String → Except IllegalArgumentException TypeRegistry
  | [] => .ok reg
  | n :: ns =>
    match registerType reg n with
    | .ok reg' => registerTypes reg' ns
    | .error e => .error e

/- ## Scoped process invocation -/

/-- The observable events of one scoped process invocation: entering the
scoped pin-access context, running process() (recording whether the scoped
context was active at that moment), and releasing the context. -/
inductive ProcEvent where
  | enterScope
  | runProcessBody (scopeActive : Bool)
  | releaseScope
deriving Repr, DecidableEq

/-- The state threaded through a scoped invocation: whether the scoped
pin-access context is currently established, and the trace of events so far. -/
structure InvocationState where
  scopeActive : Bool
  trace : List ProcEvent
deriving Repr, DecidableEq

/-- Establish the scoped pin-access context. -/
def enterScope (s : InvocationState) : InvocationState :=
  { scopeActive := true, trace := s.trace ++ [ProcEvent.enterScope] }

/-- Release the scoped pin-access context. -/
def releaseScope (s : InvocationState) : InvocationState :=
  { scopeActive := false, trace := s.trace ++ [ProcEvent.releaseScope] }

/-- Modelled from the spec: the body of PipelineElement::__process is not
under src/. It establishes the scoped pin-access context, delegates to the
process() method of the element (whose outcome is either normal completion or a raised
PipelineException), then releases the context on every exit path — also when
process() terminated abnormally — and propagates the outcome to the caller. -/
def PipelineElement.runScopedProcess (processOutcome : Option PipelineException)
    (s : InvocationState) : InvocationState × Option PipelineException :=
  let s1 := enterScope s
  let s2 := { s1 with trace := s1.trace ++ [ProcEvent.runProcessBody s1.scopeActive] }
  let s3 := releaseScope s2
  (s3, processOutcome)

/- ## Graph membership and the graph back-reference of an element -/

/-- Modelled from the spec: the Pipeline class is an external collaborator not
under src/; only the m_parent member of the element and the setPipeline declaration
are visible. The world tracks the graph back-reference of one element (m_parent,
a graph identifier or none) and the list of graphs that strongly retain the
element as a member. -/
structure PipelineWorld where
  m_parent : Option Nat
  retaining : List Nat
deriving Repr, DecidableEq

/-- Modelled from the spec: the body of PipelineElement::setPipeline is not
under src/. It first detaches the element from any previously recorded graph
back-reference (removing the element from the strongly-owned
members), then records the new back-reference; it is the sole writer of
m_parent. -/
def setPipeline (w : PipelineWorld) (g : Nat) : PipelineWorld :=
  let detached :=
    match w.m_parent with
    | some old => { w with retaining := w.retaining.filter (fun x => x ≠ old) }
    | none => w
  { detached with m_parent := some g }

/-- Modelled from the spec: adding the element to a graph is performed by the
graph container, which invokes setPipeline on the element and then records the
element among its strongly-owned members. -/
def addElementTo (w : PipelineWorld) (g : Nat) : PipelineWorld :=
  let w' := setPipeline w g
  { w' with retaining := g :: w'.retaining }

/- ## Sequences of registry operations -/

/-- A pin-registry operation on an element: registering an input pin or an
output pin. -/
inductive RegistryOp where
  | addIn (pin : IInputPin)
  | addOut (pin : IOutputPin)
deriving Repr, DecidableEq

/-- Apply one registry operation; when the operation raises
IllegalArgumentException the element is left unchanged, since the duplicate
check precedes the insertion (registration of a single pin is atomic). -/
def applyRegistryOp (e : PipelineElement) : RegistryOp → PipelineElement
  | .addIn pin =>
    match e.addInputPin pin with
    | .ok e2 => e2
    | .error _ => e
  | .addOut pin =>
    match e.addOutputPin pin with
    | .ok e2 => e2
    | .error _ => e

/-- Run a sequence of registry operations. -/
def runRegistryOps (e : PipelineElement) (ops : List RegistryOp) : PipelineElement :=
  ops.foldl applyRegistryOp e

end plv

namespace plv

/- ## Helper lemmas about the pin registry -/

theorem PinMap.containsKey_iff_mem_keys {π : Type} (m : PinMap π) (n : String) :
    PinMap.containsKey m n = true ↔ n ∈ PinMap.keys m := by
  simp [PinMap.containsKey, PinMap.keys, List.any_eq_true, List.mem_map]

theorem PinMap.findKey_cons {π : Type} (p : String × π) (m : PinMap π) (n : String) :
    PinMap.findKey (p :: m) n = if p.1 = n then some p.2 else PinMap.findKey m n := by
  by_cases h : p.1 = n
  · simp [PinMap.findKey, List.find?_cons_of_pos, h]
  · have hb : (p.1 == n) = false := by simp [h]
    simp [PinMap.findKey, List.find?_cons_of_neg, h, hb]

theorem PinMap.findKey_eq_none_iff {π : Type} (m : PinMap π) (n : String) :
    PinMap.findKey m n = none ↔ PinMap.containsKey m n = false := by
  induction m with
  | nil => simp [PinMap.findKey, PinMap.containsKey]
  | cons p m ih =>
    by_cases h : p.1 = n
    · simp [PinMap.findKey_cons, PinMap.containsKey, h]
    · rw [PinMap.findKey_cons]
      simp [h, ih]
      simp [PinMap.containsKey, h]

theorem PinMap.containsKey_cons_false {π : Type} (p : String × π) (m : PinMap π)
    (n : String) (h : PinMap.containsKey (p :: m) n = false) :
    p.1 ≠ n ∧ PinMap.containsKey m n = false := by
  simp [PinMap.containsKey] at h ⊢
  constructor
  · exact h.1
  · intro a b hab
    exact h.2 a b hab

theorem PinMap.findKey_insertKey_self {π : Type} (m : PinMap π) (n : String) (v : π)
    (h : PinMap.containsKey m n = false) :
    PinMap.findKey (PinMap.insertKey m n v) n = some v := by
  induction m with
  | nil => simp [PinMap.insertKey, PinMap.findKey_cons]
  | cons p m ih =>
    obtain ⟨h1, h2⟩ := PinMap.containsKey_cons_false p m n h
    have hstep : PinMap.insertKey (p :: m) n v = p :: PinMap.insertKey m n v := by
      simp [PinMap.insertKey]
    rw [hstep, PinMap.findKey_cons]
    simp [h1, ih h2]

theorem PinMap.findKey_of_mem {π : Type} (m : PinMap π) (n : String) (v : π)
    (hnd : (PinMap.keys m).Nodup) (hmem : (n, v) ∈ m) :
    PinMap.findKey m n = some v := by
  induction m with
  | nil => simp at hmem
  | cons p m ih =>
    rw [PinMap.findKey_cons]
    rcases List.mem_cons.mp hmem with heq | hmem2
    · subst heq
      simp
    · have hn : n ∈ PinMap.keys m := by
        simp [PinMap.keys, List.mem_map]
        exact ⟨v, hmem2⟩
      have hnd2 : p.1 ∉ PinMap.keys m ∧ (PinMap.keys m).Nodup := by
        simpa [PinMap.keys] using hnd
      have hne : p.1 ≠ n := by
        intro hc
        exact hnd2.1 (hc ▸ hn)
      simp [hne, ih hnd2.2 hmem2]

theorem PinMap.keys_insertKey {π : Type} (m : PinMap π) (n : String) (v : π) :
    PinMap.keys (PinMap.insertKey m n v) = PinMap.keys m ++ [n] := by
  simp [PinMap.keys, PinMap.insertKey]

end plv

namespace plv

/- ## Helper lemmas about the lifecycle state machine -/

open PlvPipelineElementState

theorem lifecycleStep_ne_uninitialized (s : PlvPipelineElementState) (op : LifecycleOp)
    (h : s ≠ PLV_PLE_STATE_UNINITIALIZED) :
    lifecycleStep s op ≠ PLV_PLE_STATE_UNINITIALIZED := by
  cases s with
  | PLV_PLE_STATE_UNINITIALIZED => exact absurd rfl h
  | PLV_PLE_STATE_NOT_READY =>
    cases op with
    | init r => simp [lifecycleStep]
    | reevaluate r => cases r <;> simp [lifecycleStep]
  | PLV_PLE_STATE_READY =>
    cases op with
    | init r => simp [lifecycleStep]
    | reevaluate r => cases r <;> simp [lifecycleStep]

theorem runLifecycle_ne_uninitialized (ops : List LifecycleOp) (s : PlvPipelineElementState)
    (h : s ≠ PLV_PLE_STATE_UNINITIALIZED) :
    runLifecycle s ops ≠ PLV_PLE_STATE_UNINITIALIZED := by
  induction ops generalizing s with
  | nil => exact h
  | cons op ops ih =>
    have : runLifecycle s (op :: ops) = runLifecycle (lifecycleStep s op) ops := rfl
    rw [this]
    exact ih _ (lifecycleStep_ne_uninitialized s op h)

theorem runLifecycle_no_init (ops : List LifecycleOp)
    (h : ∀ op ∈ ops, op.isInit = false) :
    runLifecycle PLV_PLE_STATE_UNINITIALIZED ops = PLV_PLE_STATE_UNINITIALIZED := by
  induction ops with
  | nil => rfl
  | cons op ops ih =>
    have hop := h op (List.mem_cons_self _ _)
    cases op with
    | init r => simp [LifecycleOp.isInit] at hop
    | reevaluate r =>
      have hs : lifecycleStep PLV_PLE_STATE_UNINITIALIZED (LifecycleOp.reevaluate r) =
          PLV_PLE_STATE_UNINITIALIZED := rfl
      have : runLifecycle PLV_PLE_STATE_UNINITIALIZED (LifecycleOp.reevaluate r :: ops) =
          runLifecycle PLV_PLE_STATE_UNINITIALIZED ops := by
        simp [runLifecycle, hs]
      rw [this]
      exact ih (fun o ho => h o (List.mem_cons_of_mem _ ho))

end plv

namespace plv

open PlvPipelineElementState

/- ## Claim theorems -/

/-- C1: for every element whose isReadyForProcessing is not overridden, the
default readiness policy holds: isReadyForProcessing returns true if and only
if all required input pins currently hold unconsumed data. -/
theorem isReadyForProcessing_default_policy (e : PipelineElement) :
    e.isReadyForProcessing = true ↔
      ∀ p ∈ e.m_inputPins, p.2.required = true → p.2.hasUnconsumedData = true := by
  unfold PipelineElement.isReadyForProcessing
  rw [List.all_eq_true]
  constructor
  · intro h p hp hreq
    have hb := h p hp
    rw [hreq] at hb
    simpa using hb
  · intro h p hp
    by_cases hreq : p.2.required = true
    · simp [hreq, h p hp hreq]
    · have : p.2.required = false := by
        simpa [Bool.not_eq_true] using hreq
      simp [this]

/-- Witness for C1 at a concrete element: an element whose single required
input pin holds unconsumed data is ready under the default policy. -/
theorem isReadyForProcessing_default_policy_witness :
    PipelineElement.isReadyForProcessing
      { m_inputPins := [("in", { name := "in", required := true, hasUnconsumedData := true })],
        m_outputPins := [] } = true := by
  apply (isReadyForProcessing_default_policy _).mpr
  intro p hp hreq
  simp at hp
  rw [hp]

/-- C2: every element is constructed in UNINITIALIZED, leaves UNINITIALIZED
exactly once and only via init (which yields NOT_READY or READY), and all
later transitions stay between NOT_READY and READY and happen only through
readiness re-evaluation; no other operation writes the state. -/
theorem lifecycle_state_machine :
    constructedState = PLV_PLE_STATE_UNINITIALIZED ∧
    (∀ ops : List LifecycleOp, (∀ op ∈ ops, op.isInit = false) →
      runLifecycle constructedState ops = PLV_PLE_STATE_UNINITIALIZED) ∧
    (∀ op : LifecycleOp,
      lifecycleStep PLV_PLE_STATE_UNINITIALIZED op ≠ PLV_PLE_STATE_UNINITIALIZED →
      op.isInit = true) ∧
    (∀ ready : Bool,
      lifecycleStep PLV_PLE_STATE_UNINITIALIZED (LifecycleOp.init ready) =
        PLV_PLE_STATE_NOT_READY ∨
      lifecycleStep PLV_PLE_STATE_UNINITIALIZED (LifecycleOp.init ready) =
        PLV_PLE_STATE_READY) ∧
    (∀ (s : PlvPipelineElementState) (ops : List LifecycleOp),
      s ≠ PLV_PLE_STATE_UNINITIALIZED →
      runLifecycle s ops ≠ PLV_PLE_STATE_UNINITIALIZED) ∧
    (∀ (s : PlvPipelineElementState) (op : LifecycleOp),
      s ≠ PLV_PLE_STATE_UNINITIALIZED → lifecycleStep s op ≠ s →
      op.isInit = false) := by
  refine ⟨rfl, runLifecycle_no_init, ?_, ?_, ?_, ?_⟩
  · intro op h
    cases op with
    | init r => rfl
    | reevaluate r => exact absurd rfl h
  · intro ready
    cases ready with
    | false => left; rfl
    | true => right; rfl
  · intro s ops h
    exact runLifecycle_ne_uninitialized ops s h
  · intro s op hs hstep
    cases op with
    | init r =>
      exfalso
      apply hstep
      cases s with
      | PLV_PLE_STATE_UNINITIALIZED => exact absurd rfl hs
      | PLV_PLE_STATE_NOT_READY => rfl
      | PLV_PLE_STATE_READY => rfl
    | reevaluate r => rfl

/-- Witness for C2 at a concrete run: init reporting ready, followed by one
re-evaluation reporting not ready, never revisits UNINITIALIZED. -/
theorem lifecycle_state_machine_witness :
    runLifecycle PLV_PLE_STATE_READY [LifecycleOp.reevaluate false] ≠
      PLV_PLE_STATE_UNINITIALIZED :=
  lifecycle_state_machine.2.2.2.2.1 PLV_PLE_STATE_READY
    [LifecycleOp.reevaluate false] (by decide)

/-- C3: addInputPin (addOutputPin) raises IllegalArgumentException if and
only if a pin with the same name is already present in the input (output) map
of that element, the check consulting only the map of the same side; on
success the pin is registered under its own name and held by that registry,
the other registry left untouched. -/
theorem add_pin_duplicate_check (e : PipelineElement) (pin : IInputPin)
    (pout : IOutputPin) :
    ((∃ err, e.addInputPin pin = Except.error err) ↔
      PinMap.containsKey e.m_inputPins pin.name = true) ∧
    ((∃ err, e.addOutputPin pout = Except.error err) ↔
      PinMap.containsKey e.m_outputPins pout.name = true) ∧
    (∀ e2, e.addInputPin pin = Except.ok e2 →
      e2.getInputPin pin.name = some pin ∧ e2.m_outputPins = e.m_outputPins) ∧
    (∀ e2, e.addOutputPin pout = Except.ok e2 →
      e2.getOutputPin pout.name = some pout ∧ e2.m_inputPins = e.m_inputPins) := by
  refine ⟨?_, ?_, ?_, ?_⟩
  · unfold PipelineElement.addInputPin
    by_cases h : PinMap.containsKey e.m_inputPins pin.name <;> simp [h]
  · unfold PipelineElement.addOutputPin
    by_cases h : PinMap.containsKey e.m_outputPins pout.name <;> simp [h]
  · intro e2 hok
    unfold PipelineElement.addInputPin at hok
    by_cases h : PinMap.containsKey e.m_inputPins pin.name
    · simp [h] at hok
    · simp [h] at hok
      subst hok
      have hfalse : PinMap.containsKey e.m_inputPins pin.name = false := by
        simpa using h
      exact ⟨PinMap.findKey_insertKey_self e.m_inputPins pin.name pin hfalse, rfl⟩
  · intro e2 hok
    unfold PipelineElement.addOutputPin at hok
    by_cases h : PinMap.containsKey e.m_outputPins pout.name
    · simp [h] at hok
    · simp [h] at hok
      subst hok
      have hfalse : PinMap.containsKey e.m_outputPins pout.name = false := by
        simpa using h
      exact ⟨PinMap.findKey_insertKey_self e.m_outputPins pout.name pout hfalse, rfl⟩

/-- Witness for C3 at a concrete element: registering a fresh input pin on an
empty element succeeds and the pin is found under its own name afterwards. -/
theorem add_pin_duplicate_check_witness :
    PipelineElement.getInputPin
      { m_inputPins := [("p", { name := "p", required := true, hasUnconsumedData := false })],
        m_outputPins := [] } "p" =
      some { name := "p", required := true, hasUnconsumedData := false } :=
  ((add_pin_duplicate_check
      { m_inputPins := [], m_outputPins := [] }
      { name := "p", required := true, hasUnconsumedData := false }
      { name := "q" }).2.2.1
    { m_inputPins := [("p", { name := "p", required := true, hasUnconsumedData := false })],
      m_outputPins := [] }
    (by rfl)).1

end plv

namespace plv

/- ## Helper lemma about the type registry -/

theorem registerTypes_ok_of_nodup (names : List String) (reg : TypeRegistry)
    (hnd : names.Nodup) (hdisj : ∀ n ∈ names, n ∉ reg) :
    ∃ reg2, registerTypes reg names = Except.ok reg2 ∧ types reg2 = types reg ++ names := by
  induction names generalizing reg with
  | nil => exact ⟨reg, rfl, by simp [types]⟩
  | cons n ns ih =>
    have hn : n ∉ reg := hdisj n (List.mem_cons_self _ _)
    have hstep : registerType reg n = Except.ok (reg ++ [n]) := by
      simp [registerType, hn]
    have hnd2 : ns.Nodup := (List.nodup_cons.mp hnd).2
    have hdisj2 : ∀ m ∈ ns, m ∉ reg ++ [n] := by
      intro m hm
      simp [List.mem_append]
      constructor
      · exact hdisj m (List.mem_cons_of_mem _ hm)
      · intro hc
        subst hc
        exact (List.nodup_cons.mp hnd).1 hm
    obtain ⟨reg2, hrun, htypes⟩ := ih (reg ++ [n]) hnd2 hdisj2
    refine ⟨reg2, ?_, ?_⟩
    · simp [registerTypes, hstep, hrun]
    · simp [types] at htypes ⊢
      simp [htypes]

/-- C4: registering the same type name a second time fails with the
illegal-argument condition, and after N successful registrations of N
distinct names, types() returns exactly those N names. -/
theorem registerType_second_attempt_fails (reg : TypeRegistry) (n : String)
    (names : List String) :
    (∀ reg2, registerType reg n = Except.ok reg2 →
      ∃ err, registerType reg2 n = Except.error err) ∧
    (names.Nodup →
      ∃ reg2, registerTypes [] names = Except.ok reg2 ∧ types reg2 = names) := by
  constructor
  · intro reg2 hok
    by_cases h : n ∈ reg
    · simp [registerType, h] at hok
    · simp [registerType, h] at hok
      subst hok
      refine ⟨{ msg := "type name already registered" }, ?_⟩
      have hmem : n ∈ reg ++ [n] := by simp
      simp [registerType, hmem]
  · intro hnd
    have := registerTypes_ok_of_nodup names [] hnd (by simp)
    simpa [types] using this

/-- Witness for C4 at a concrete registry: two distinct names register
successfully from the empty registry and types() lists exactly them. -/
theorem registerType_second_attempt_fails_witness :
    ∃ reg2, registerTypes [] ["a", "b"] = Except.ok reg2 ∧ types reg2 = ["a", "b"] :=
  (registerType_second_attempt_fails [] "x" ["a", "b"]).2 (by decide)

/-- C5: getInputPin (getOutputPin) on a name not registered on that side
returns none — an explicit absence, not a failure — and on a registered name
returns the pin registered under that name. -/
theorem getPin_absence (e : PipelineElement) (n : String) :
    (PinMap.containsKey e.m_inputPins n = false → e.getInputPin n = none) ∧
    (PinMap.containsKey e.m_outputPins n = false → e.getOutputPin n = none) ∧
    (∀ pin : IInputPin, (PinMap.keys e.m_inputPins).Nodup → (n, pin) ∈ e.m_inputPins →
      e.getInputPin n = some pin) ∧
    (∀ pout : IOutputPin, (PinMap.keys e.m_outputPins).Nodup → (n, pout) ∈ e.m_outputPins →
      e.getOutputPin n = some pout) := by
  refine ⟨?_, ?_, ?_, ?_⟩
  · intro h
    exact (PinMap.findKey_eq_none_iff e.m_inputPins n).mpr h
  · intro h
    exact (PinMap.findKey_eq_none_iff e.m_outputPins n).mpr h
  · intro pin hnd hmem
    exact PinMap.findKey_of_mem e.m_inputPins n pin hnd hmem
  · intro pout hnd hmem
    exact PinMap.findKey_of_mem e.m_outputPins n pout hnd hmem

/-- Witness for C5 at a concrete element: lookup of an unregistered name on
an element with empty registries yields none. -/
theorem getPin_absence_witness :
    PipelineElement.getInputPin { m_inputPins := [], m_outputPins := [] } "absent" = none :=
  (getPin_absence { m_inputPins := [], m_outputPins := [] } "absent").1 (by rfl)

end plv

namespace plv

/- ## Helper lemmas for registry-operation sequences and readiness purity -/

theorem applyRegistryOp_preserves_nodup (e : PipelineElement) (op : RegistryOp)
    (hin : (PinMap.keys e.m_inputPins).Nodup)
    (hout : (PinMap.keys e.m_outputPins).Nodup) :
    (PinMap.keys (applyRegistryOp e op).m_inputPins).Nodup ∧
      (PinMap.keys (applyRegistryOp e op).m_outputPins).Nodup := by
  cases op with
  | addIn pin =>
    by_cases h : PinMap.containsKey e.m_inputPins pin.name
    · simp [applyRegistryOp, PipelineElement.addInputPin, h]
      exact ⟨hin, hout⟩
    · simp [applyRegistryOp, PipelineElement.addInputPin, h, PinMap.keys_insertKey]
      refine ⟨?_, hout⟩
      rw [List.nodup_append]
      refine ⟨hin, List.nodup_singleton _, ?_⟩
      intro a ha hb
      simp at hb
      subst hb
      have : PinMap.containsKey e.m_inputPins pin.name = true :=
        (PinMap.containsKey_iff_mem_keys _ _).mpr ha
      simp [this] at h
  | addOut pin =>
    by_cases h : PinMap.containsKey e.m_outputPins pin.name
    · simp [applyRegistryOp, PipelineElement.addOutputPin, h]
      exact ⟨hin, hout⟩
    · simp [applyRegistryOp, PipelineElement.addOutputPin, h, PinMap.keys_insertKey]
      refine ⟨hin, ?_⟩
      rw [List.nodup_append]
      refine ⟨hout, List.nodup_singleton _, ?_⟩
      intro a ha hb
      simp at hb
      subst hb
      have : PinMap.containsKey e.m_outputPins pin.name = true :=
        (PinMap.containsKey_iff_mem_keys _ _).mpr ha
      simp [this] at h

theorem runRegistryOps_preserves_nodup (ops : List RegistryOp) (e : PipelineElement)
    (hin : (PinMap.keys e.m_inputPins).Nodup)
    (hout : (PinMap.keys e.m_outputPins).Nodup) :
    (PinMap.keys (runRegistryOps e ops).m_inputPins).Nodup ∧
      (PinMap.keys (runRegistryOps e ops).m_outputPins).Nodup := by
  induction ops generalizing e with
  | nil => exact ⟨hin, hout⟩
  | cons op ops ih =>
    have h := applyRegistryOp_preserves_nodup e op hin hout
    exact ih (applyRegistryOp e op) h.1 h.2

theorem all_pins_eq_all_observations (m : List (String × IInputPin)) :
    m.all (fun p => !p.2.required || p.2.hasUnconsumedData) =
      (m.map (fun p => (p.2.required, p.2.hasUnconsumedData))).all
        (fun o => !o.1 || o.2) := by
  induction m with
  | nil => rfl
  | cons p m ih => simp [List.all_cons, ih]

theorem isReadyForProcessing_eq_observations (e : PipelineElement) :
    e.isReadyForProcessing =
      (e.readinessObservations.all fun o => !o.1 || o.2) :=
  all_pins_eq_all_observations e.m_inputPins

/-- C6: after any sequence of registry operations no two input pins of an
element share a name and no two output pins share a name, while the input and
output namespaces are independent: registering a fresh name once as an input
pin and once as an output pin on the same element both succeed. -/
theorem pin_namespaces_unique_and_independent (e : PipelineElement)
    (ops : List RegistryOp) (pin : IInputPin) (pout : IOutputPin)
    (hin : (PinMap.keys e.m_inputPins).Nodup)
    (hout : (PinMap.keys e.m_outputPins).Nodup)
    (hfreshin : PinMap.containsKey e.m_inputPins pin.name = false)
    (hfreshout : PinMap.containsKey e.m_outputPins pout.name = false) :
    ((PinMap.keys (runRegistryOps e ops).m_inputPins).Nodup ∧
      (PinMap.keys (runRegistryOps e ops).m_outputPins).Nodup) ∧
    (∃ e1 e2, e.addInputPin pin = Except.ok e1 ∧
      e1.addOutputPin pout = Except.ok e2) := by
  refine ⟨runRegistryOps_preserves_nodup ops e hin hout, ?_⟩
  have h1 : e.addInputPin pin = Except.ok
      { e with m_inputPins := PinMap.insertKey e.m_inputPins pin.name pin } := by
    simp [PipelineElement.addInputPin, hfreshin]
  have h2 : PipelineElement.addOutputPin
      { e with m_inputPins := PinMap.insertKey e.m_inputPins pin.name pin } pout =
      Except.ok
        { m_inputPins := PinMap.insertKey e.m_inputPins pin.name pin,
          m_outputPins := PinMap.insertKey e.m_outputPins pout.name pout } := by
    simp [PipelineElement.addOutputPin, hfreshout]
  exact ⟨_, _, h1, h2⟩

/-- Witness for C6 at a concrete element: on an empty element the same name
registers once as an input pin and once as an output pin, both succeeding. -/
theorem pin_namespaces_unique_and_independent_witness :
    ∃ e1 e2,
      PipelineElement.addInputPin { m_inputPins := [], m_outputPins := [] }
        { name := "p", required := true, hasUnconsumedData := false } = Except.ok e1 ∧
      PipelineElement.addOutputPin e1 { name := "p" } = Except.ok e2 :=
  (pin_namespaces_unique_and_independent
    { m_inputPins := [], m_outputPins := [] } []
    { name := "p", required := true, hasUnconsumedData := false }
    { name := "p" } (by decide) (by decide) (by rfl) (by rfl)).2

/-- C7: the scoped invocation entry point establishes the scoped pin-access
context before delegating to process(), releases that context on every exit
path — also when process() terminates abnormally with a raised failure, which
it propagates — and the process body runs inside the established context. -/
theorem scoped_process_releases_context (outcome : Option PipelineException)
    (s : InvocationState) :
    ((PipelineElement.runScopedProcess outcome s).1.scopeActive = false) ∧
    ((PipelineElement.runScopedProcess outcome s).2 = outcome) ∧
    ((PipelineElement.runScopedProcess outcome s).1.trace =
      s.trace ++ [ProcEvent.enterScope, ProcEvent.runProcessBody true,
        ProcEvent.releaseScope]) := by
  refine ⟨rfl, rfl, ?_⟩
  simp [PipelineElement.runScopedProcess, enterScope, releaseScope]

/-- Witness for C7 at a concrete invocation whose process body raises a
failure: the scoped context is released nevertheless. -/
theorem scoped_process_releases_context_witness :
    (PipelineElement.runScopedProcess (some { msg := "process failed" })
      { scopeActive := false, trace := [] }).1.scopeActive = false :=
  (scoped_process_releases_context (some { msg := "process failed" })
    { scopeActive := false, trace := [] }).1

/-- C8: setPipeline first detaches the element from any previously recorded
graph back-reference and then records the new one; after the element is added
to G1 and then to G2, its back-reference points only to G2 and G1 no longer
retains it; the back-reference is written only through setPipeline, which the
graph-side add operation delegates to. -/
theorem setPipeline_detach_then_record (w : PipelineWorld) (g1 g2 : Nat)
    (h : g1 ≠ g2) :
    (addElementTo (addElementTo w g1) g2).m_parent = some g2 ∧
    g1 ∉ (addElementTo (addElementTo w g1) g2).retaining ∧
    (∀ (v : PipelineWorld) (g : Nat), (setPipeline v g).m_parent = some g) ∧
    (∀ (v : PipelineWorld) (g : Nat),
      (addElementTo v g).m_parent = (setPipeline v g).m_parent) := by
  refine ⟨rfl, ?_, fun v g => rfl, fun v g => rfl⟩
  cases hw : w.m_parent with
  | none => simp [addElementTo, setPipeline, hw, List.mem_filter, h]
  | some old => simp [addElementTo, setPipeline, hw, List.mem_filter, h]

/-- Witness for C8 at a concrete world: after adding the element to graph 1
and then graph 2, the back-reference is graph 2. -/
theorem setPipeline_detach_then_record_witness :
    (addElementTo (addElementTo { m_parent := none, retaining := [] } 1) 2).m_parent =
      some 2 :=
  (setPipeline_detach_then_record { m_parent := none, retaining := [] } 1 2
    (by decide)).1

/-- C9: isReadyForProcessing is side-effect-free: the call leaves the element
(its state, registries and pin contents) unchanged, and its verdict depends
only on the observations it makes of the input pins, so repeated calls agree. -/
theorem isReadyForProcessing_side_effect_free (e e2 : PipelineElement)
    (h : e.readinessObservations = e2.readinessObservations) :
    (e.isReadyForProcessingCall.2 = e) ∧
    (e.isReadyForProcessingCall.1 = e2.isReadyForProcessingCall.1) := by
  refine ⟨rfl, ?_⟩
  show e.isReadyForProcessing = e2.isReadyForProcessing
  rw [isReadyForProcessing_eq_observations, isReadyForProcessing_eq_observations, h]

/-- Witness for C9 at two concrete elements that differ only in pin naming
but agree on the observed pin data: the verdicts agree. -/
theorem isReadyForProcessing_side_effect_free_witness :
    (PipelineElement.isReadyForProcessingCall
      { m_inputPins := [("a", { name := "a", required := true, hasUnconsumedData := true })],
        m_outputPins := [] }).1 =
    (PipelineElement.isReadyForProcessingCall
      { m_inputPins := [("b", { name := "b", required := true, hasUnconsumedData := true })],
        m_outputPins := [] }).1 :=
  (isReadyForProcessing_side_effect_free
    { m_inputPins := [("a", { name := "a", required := true, hasUnconsumedData := true })],
      m_outputPins := [] }
    { m_inputPins := [("b", { name := "b", required := true, hasUnconsumedData := true })],
      m_outputPins := [] } (by rfl)).2

/-- C10: getInputPinNames (getOutputPinNames) returns exactly the registered
input (output) pin names, without duplicates, sorted lexicographically by
name as the map key order dictates, irrespective of registration order. -/
theorem getPinNames_sorted_enumeration (e e2 : PipelineElement)
    (hperm : List.Perm e.m_inputPins e2.m_inputPins)
    (hnd : (PinMap.keys e.m_inputPins).Nodup)
    (hndo : (PinMap.keys e.m_outputPins).Nodup) :
    List.Sorted (· ≤ ·) e.getInputPinNames ∧
    e.getInputPinNames.Nodup ∧
    List.Perm e.getInputPinNames (PinMap.keys e.m_inputPins) ∧
    e.getInputPinNames = e2.getInputPinNames ∧
    List.Sorted (· ≤ ·) e.getOutputPinNames ∧
    e.getOutputPinNames.Nodup ∧
    List.Perm e.getOutputPinNames (PinMap.keys e.m_outputPins) := by
  have hsort1 : List.Sorted (· ≤ ·) e.getInputPinNames :=
    List.sorted_insertionSort _ _
  have hperm1 : List.Perm e.getInputPinNames (PinMap.keys e.m_inputPins) :=
    List.perm_insertionSort _ _
  have hsort2 : List.Sorted (· ≤ ·) e.getOutputPinNames :=
    List.sorted_insertionSort _ _
  have hperm2 : List.Perm e.getOutputPinNames (PinMap.keys e.m_outputPins) :=
    List.perm_insertionSort _ _
  have hkeys : List.Perm (PinMap.keys e.m_inputPins) (PinMap.keys e2.m_inputPins) :=
    hperm.map Prod.fst
  have hchain : List.Perm e.getInputPinNames e2.getInputPinNames :=
    (hperm1.trans hkeys).trans (List.perm_insertionSort _ _).symm
  refine ⟨hsort1, hperm1.symm.nodup hnd, hperm1, ?_, hsort2, hperm2.symm.nodup hndo, hperm2⟩
  exact List.eq_of_perm_of_sorted hchain hsort1 (List.sorted_insertionSort _ _)

/-- Witness for C10 at two concrete elements whose input registries are
permutations of one another: the enumerated names coincide and come out in
lexicographic order. -/
theorem getPinNames_sorted_enumeration_witness :
    PipelineElement.getInputPinNames
      { m_inputPins := [("b", { name := "b", required := true, hasUnconsumedData := false }),
                        ("a", { name := "a", required := true, hasUnconsumedData := false })],
        m_outputPins := [] } =
    PipelineElement.getInputPinNames
      { m_inputPins := [("a", { name := "a", required := true, hasUnconsumedData := false }),
                        ("b", { name := "b", required := true, hasUnconsumedData := false })],
        m_outputPins := [] } :=
  (getPinNames_sorted_enumeration
    { m_inputPins := [("b", { name := "b", required := true, hasUnconsumedData := false }),
                      ("a", { name := "a", required := true, hasUnconsumedData := false })],
      m_outputPins := [] }
    { m_inputPins := [("a", { name := "a", required := true, hasUnconsumedData := false }),
                      ("b", { name := "b", required := true, hasUnconsumedData := false })],
      m_outputPins := [] }
    (by decide) (by decide) (by decide)).2.2.2.1

end plv
